import Mathlib

/-!
# Verification of the Formik form-state controller

A shallow embedding of the form-state manager's core logic:
the path accessor, the validation pipeline (field-level batch, schema
translation, form-level handler, deep merge), the form state controller's
submit/reset/change operations, and the mount guard for async settlement.

JavaScript dynamic values are embedded as the inductive `Val`; promises are
embedded as settled outcomes (`VRes`), matching the single-threaded
event-loop model in which each pending computation settles deterministically.
-/

set_option autoImplicit false

namespace Formik
/-- A JavaScript value, as used by the form state trees: strings, numbers
(rationals, standing in for JS doubles; `NaN` outcomes are represented via
`Option` at parse sites), booleans, `undefined`, objects (insertion-ordered
association lists, matching JS object key enumeration order), and arrays. -/
inductive Val where
  | vStr (s : String)
  | vNum (q : Rat)
  | vBool (b : Bool)
  | vUndef
  | vObj (fs : List (String × Val))
  | vArr (es : List Val)
  deriving Repr

namespace Val

/-- JS truthiness: `''`, `0`, `false`, `undefined` are falsy; objects and
arrays are truthy. -/
def truthy : Val → Bool
  | vStr s => s != ""
  | vNum q => q != 0
  | vBool b => b
  | vUndef => false
  | vObj _ => true
  | vArr _ => true

end Val

mutual
/-- Structural deep equality on embedded JS values (the `isEqual` of
`react-fast-compare`, used by the controller for the `dirty` computation
and for reinitialization detection). -/
def valBeq : Val → Val → Bool
  | .vStr a, .vStr b => a == b
  | .vNum a, .vNum b => a == b
  | .vBool a, .vBool b => a == b
  | .vUndef, .vUndef => true
  | .vObj fs, .vObj gs => fieldsBeq fs gs
  | .vArr es, .vArr ds => elemsBeq es ds
  | _, _ => false

/-- Deep equality on object field lists. -/
def fieldsBeq : List (String × Val) → List (String × Val) → Bool
  | [], [] => true
  | (k, v) :: r, (k', v') :: r' => k == k' && valBeq v v' && fieldsBeq r r'
  | _, _ => false

/-- Deep equality on array element lists. -/
def elemsBeq : List Val → List Val → Bool
  | [], [] => true
  | v :: r, v' :: r' => valBeq v v' && elemsBeq r r'
  | _, _ => false
end

/-! ## Path accessor

Modelled from the spec: the `getIn`/`setIn`/`setNestedObjectValues` helpers
live in the repository's `utils` module, which is not part of the provided
sources (only their callers are).  The definitions below follow §4.1 of the
specification: a path is a sequence of tokens separated by dots and brackets;
an all-digit token is a sequence index, any other token is a mapping key;
`set` creates the minimal intermediate containers, and `get` through a
non-existent path yields the absent marker (`vUndef`). -/

/-- One parsed path segment: a mapping key or a sequence index. -/
inductive Seg where
  | key (k : String)
  | idx (i : Nat)
  deriving DecidableEq, Repr

/-- Is this character a path separator (`.`, `[`, or `]`)? -/
def isSep (c : Char) : Bool := c == '.' || c == '[' || c == ']'

/-- Split a character list into maximal separator-free tokens;
`acc` holds the (reversed) characters of the token being scanned. -/
def tokenizeAux (acc : List Char) : List Char → List (List Char)
  | [] => if acc.isEmpty then [] else [acc.reverse]
  | c :: cs =>
    if isSep c then
      if acc.isEmpty then tokenizeAux [] cs
      else acc.reverse :: tokenizeAux [] cs
    else tokenizeAux (c :: acc) cs

/-- Decimal value of an all-digit token. -/
def digitsToNat (tok : List Char) : Nat :=
  tok.foldl (fun n c => n * 10 + (c.toNat - '0'.toNat)) 0

/-- Classify one token: an all-digit token is a sequence index,
anything else is a mapping key. -/
def segOfToken (tok : List Char) : Seg :=
  if tok ≠ [] && tok.all Char.isDigit then
    Seg.idx (digitsToNat tok)
  else
    Seg.key (String.mk tok)

/-- Modelled from the spec: parse a dotted/bracketed path string into
segments; `a.b[0].c` and `a[b][0].c` parse identically. -/
def toPath (p : String) : List Seg :=
  (tokenizeAux [] p.data).map segOfToken

/-- First-match lookup in an object's field list. -/
def lookupKey (k : String) : List (String × Val) → Option Val
  | [] => none
  | (k', v) :: rest => if k' = k then some v else lookupKey k rest

/-- Replace the first binding of `k` (or append one). -/
def setKey (k : String) (v : Val) : List (String × Val) → List (String × Val)
  | [] => [(k, v)]
  | (k', v') :: rest =>
    if k' = k then (k, v) :: rest else (k', v') :: setKey k v rest

/-- Read index `i` of an element list (`vUndef` when out of range). -/
def getNth (i : Nat) : List Val → Val
  | [] => Val.vUndef
  | e :: rest => match i with
    | 0 => e
    | n + 1 => getNth n rest

/-- Write index `i`, padding with `vUndef` holes as JS array assignment does. -/
def setNth (i : Nat) (v : Val) : List Val → List Val
  | [] => match i with
    | 0 => [v]
    | n + 1 => Val.vUndef :: setNth n v []
  | e :: rest => match i with
    | 0 => v :: rest
    | n + 1 => e :: setNth n v rest

/-- Modelled from the spec: `get` over parsed segments.  A key segment reads
an object field, an index segment reads an array slot; any mismatch or
missing entry yields the absent marker. -/
def getSegs : Val → List Seg → Val
  | t, [] => t
  | Val.vObj fs, Seg.key k :: rest =>
    match lookupKey k fs with
    | some v => getSegs v rest
    | none => Val.vUndef
  | Val.vArr es, Seg.idx i :: rest => getSegs (getNth i es) rest
  | _, _ => Val.vUndef

/-- Modelled from the spec: immutable `set` over parsed segments, creating
the minimal intermediate containers (an object for a key segment, an array
for an index segment) when the tree does not yet have a container of the
required kind at that point. -/
def setSegs : Val → List Seg → Val → Val
  | _, [], v => v
  | Val.vObj fs, Seg.key k :: rest, v =>
    let child := match lookupKey k fs with
      | some c => c
      | none => Val.vUndef
    Val.vObj (setKey k (setSegs child rest v) fs)
  | Val.vArr es, Seg.idx i :: rest, v =>
    Val.vArr (setNth i (setSegs (getNth i es) rest v) es)
  | _, Seg.key k :: rest, v =>
    -- a key segment over a non-object replaces it with a fresh mapping
    Val.vObj [(k, setSegs Val.vUndef rest v)]
  | _, Seg.idx i :: rest, v =>
    -- an index segment over a non-array replaces it with a fresh sequence
    Val.vArr (setNth i (setSegs Val.vUndef rest v) [])

/-- Modelled from the spec: `get(tree, path)` — read the value addressed by a
dotted/bracketed path string, yielding `vUndef` for a non-existent path. -/
def getIn (tree : Val) (path : String) : Val :=
  getSegs tree (toPath path)

/-- Modelled from the spec: `set(tree, path, value)` — immutably write the
value at the addressed path, creating minimal intermediate containers. -/
def setIn (tree : Val) (path : String) (value : Val) : Val :=
  setSegs tree (toPath path) value

@[simp] theorem lookupKey_setKey (k : String) (v : Val) :
    ∀ fs, lookupKey k (setKey k v fs) = some v
  | [] => by simp [setKey, lookupKey]
  | (k', v') :: rest => by
    by_cases h : k' = k <;>
      simp [setKey, lookupKey, h, lookupKey_setKey k v rest]

@[simp] theorem getNth_setNth (v : Val) :
    ∀ (i : Nat) (es : List Val), getNth i (setNth i v es) = v
  | 0, [] => rfl
  | 0, _ :: _ => rfl
  | n + 1, [] => by simpa [setNth, getNth] using getNth_setNth v n []
  | n + 1, _ :: rest => by
    simpa [setNth, getNth] using getNth_setNth v n rest

/-! ## Deep merge

Modelled from the spec: `runValidations` merges the three error trees with
the external `deepmerge` library (`deepmerge.all([field, schema, form])`),
specified in §4.2/§9 as an object-wise union recursing into common nested
keys, with the later tree's value winning elsewhere; result keys keep the
earlier tree's order, followed by keys only the later tree has. -/

mutual
/-- Two-tree deep merge: objects merge key-wise, any other combination is
overwritten by the right (later) tree. -/
def deepmerge : Val → Val → Val
  | Val.vObj fs, Val.vObj gs => Val.vObj (dmFold fs gs)
  | _, b => b
termination_by a b => (sizeOf b, 0, sizeOf a)

/-- Fold the right tree's fields into the accumulated field list. -/
def dmFold (fs : List (String × Val)) : List (String × Val) → List (String × Val)
  | [] => fs
  | (k, w) :: rest => dmFold (dmInsert fs k w) rest
termination_by gs => (sizeOf gs, 2, sizeOf fs)

/-- Merge one right-hand binding into the field list: an existing binding is
deep-merged in place, a new key is appended. -/
def dmInsert (fs : List (String × Val)) (k : String) (w : Val) : List (String × Val) :=
  match fs with
  | [] => [(k, w)]
  | (k', v) :: rest =>
    if k' = k then (k', deepmerge v w) :: rest else (k', v) :: dmInsert rest k w
termination_by (sizeOf w, 1, sizeOf fs)
end

/-- `deepmerge.all`: left fold of the pairwise merge starting from `{}`. -/
def deepmergeAll (l : List Val) : Val :=
  l.foldl deepmerge (Val.vObj [])

/-- Boolean key membership. -/
def keyMem (k : String) : List String → Bool
  | [] => false
  | k' :: rest => k' == k || keyMem k rest

/-- All keys distinct (the JS object's unique-key invariant for one field
list). -/
def keysDistinct : List String → Bool
  | [] => true
  | k :: rest => !(keyMem k rest) && keysDistinct rest

mutual
/-- Every object node of the tree satisfies the JS unique-key invariant. -/
def wfKeys : Val → Bool
  | Val.vObj fs => keysDistinct (fs.map Prod.fst) && wfFieldsKeys fs
  | Val.vArr es => wfElemsKeys es
  | _ => true

/-- `wfKeys` over object fields. -/
def wfFieldsKeys : List (String × Val) → Bool
  | [] => true
  | (_, v) :: rest => wfKeys v && wfFieldsKeys rest

/-- `wfKeys` over array elements. -/
def wfElemsKeys : List Val → Bool
  | [] => true
  | v :: rest => wfKeys v && wfElemsKeys rest
end

/-- Is the value an object? -/
def Val.isObjV : Val → Bool
  | .vObj _ => true
  | _ => false

/-- A present merge leaf: neither absent nor an object (arrays and
primitives are overwritten wholesale by the later tree in a merge). -/
def Val.isMergeLeaf : Val → Bool
  | .vObj _ => false
  | .vUndef => false
  | _ => true

mutual
/-- Modelled from the spec: `setNestedObjectValues(tree, true)` — an
equivalently-shaped tree in which every leaf is `true` (marks the whole
form touched on submit). -/
def setNestedObjectValues : Val → Val
  | Val.vObj fs => Val.vObj (setNOVFields fs)
  | Val.vArr es => Val.vArr (setNOVElems es)
  | _ => Val.vBool true

/-- `setNestedObjectValues` over object fields. -/
def setNOVFields : List (String × Val) → List (String × Val)
  | [] => []
  | (k, v) :: rest => (k, setNestedObjectValues v) :: setNOVFields rest

/-- `setNestedObjectValues` over array elements. -/
def setNOVElems : List Val → List Val
  | [] => []
  | v :: rest => setNestedObjectValues v :: setNOVElems rest
end

/-! ## Validation pipeline -/

/-- Outcome of one validator invocation, as a settled promise:
`new Promise(resolve => resolve(validate(value)))` fulfills with the
returned value and rejects when the validator throws (or returns a
promise that rejects). -/
inductive VRes where
  | ok (v : Val)
  | err (e : Val)

/-- `.then(x => x, e => e)`: both fulfillment and rejection settle to a
plain value. -/
def VRes.settle : VRes → Val
  | .ok v => v
  | .err e => e

/-- A field registration (`registerField(name, { validate })`); the
validator is optional. -/
structure FieldReg where
  validate : Option (Val → VRes)

/-- The controller's `fields` object: an insertion-ordered association list
with the JS object's unique-key invariant. -/
abbrev Fields := List (String × FieldReg)

/-- `this.fields[name]` lookup. -/
def lookupField (fields : Fields) (name : String) : Option FieldReg :=
  match fields with
  | [] => none
  | (k, reg) :: rest => if k = name then some reg else lookupField rest name

/-- `registerField(name, fns)`: `this.fields[name] = fns` — replace the
binding in place, or append a new key. -/
def registerField (fields : Fields) (name : String) (reg : FieldReg) : Fields :=
  if (fields.map Prod.fst).contains name then
    fields.map (fun p => if p.1 = name then (name, reg) else p)
  else fields ++ [(name, reg)]

/-- `unregisterField(name)`: `delete this.fields[name]`. -/
def unregisterField (fields : Fields) (name : String) : Fields :=
  fields.filter (fun p => p.1 ≠ name)

/-- The unguarded lookup chain of `runSingleFieldLevelValidation`
(`this.fields[field].validate`): `none` covers both TypeError sources — a
missing registration (property access on `undefined`) and a registration
without a validator (call of `undefined`). -/
def fieldValidatorLookup (fields : Fields) (field : String) : Option (Val → VRes) :=
  match lookupField fields field with
  | some reg => reg.validate
  | none => none

/-- The reserved placeholder resolved when no field has a validator, so the
aggregation step always reduces over at least one settled result. -/
def sentinelStr : String := "DO_NOT_DELETE_YOU_WILL_BE_FIRED"

/-- Strict equality `curr === 'DO_NOT_DELETE_YOU_WILL_BE_FIRED'`. -/
def Val.isSentinel : Val → Bool
  | .vStr s => s == sentinelStr
  | _ => false

/-- The validator-bearing registrations in object key order; pairs
`fieldKeysWithValidation` (`Object.keys(this.fields).filter(...)` under the
unique-key object invariant) with each field's validator. -/
def validatorEntries (fields : Fields) : List (String × (Val → VRes)) :=
  fields.filterMap (fun p => p.2.validate.map (fun vfn => (p.1, vfn)))

/-- `fieldKeysWithValidation`. -/
def fieldKeysWithValidation (fields : Fields) : List String :=
  (validatorEntries fields).map Prod.fst

/-- One step of the error aggregation in `runFieldLevelValidations`: the
sentinel placeholder is skipped, a truthy settled result is written at the
field's path, a falsy one contributes nothing. -/
def reduceStep (prev : Val) (field : String) (curr : Val) : Val :=
  if curr.isSentinel then prev
  else if curr.truthy then setIn prev field curr
  else prev

/-- The `reduce` over the settled results (each paired with the field key it
was validated for). -/
def reduceErrors : Val → List (String × Val) → Val
  | prev, [] => prev
  | prev, (f, c) :: rest => reduceErrors (reduceStep prev f c) rest

/-- `runFieldLevelValidations(values)`: every registered validator runs,
isolated by `.then(x => x, e => e)`; with zero validators the aggregation
reduces over the sentinel placeholder alone (whose key slot is never read,
the sentinel test coming first). -/
def runFieldLevelValidations (fields : Fields) (values : Val) : Val :=
  let entries := validatorEntries fields
  if entries.isEmpty then
    reduceErrors (Val.vObj []) [("", Val.vStr sentinelStr)]
  else
    reduceErrors (Val.vObj [])
      (entries.map (fun p => (p.1, (p.2 (getIn values p.1)).settle)))

/-- `Promise.all`: rejects with the first rejection in the input, otherwise
fulfills with the list of fulfilled values. -/
def promiseAll : List VRes → Except Val (List Val)
  | [] => Except.ok []
  | VRes.ok v :: rest => (promiseAll rest).map (fun vs => v :: vs)
  | VRes.err e :: _ => Except.error e

/-- The `Promise.all` input of the field-level batch: every single-field
promise is already caught by `.then(x => x, e => e)`, so each element is a
fulfilled promise carrying the settled value. -/
def fieldLevelBatchPromises (fields : Fields) (values : Val) : List VRes :=
  (validatorEntries fields).map
    (fun p => VRes.ok ((p.2 (getIn values p.1)).settle))

/-- One entry of a schema library failure list (`err.inner`): a path and a
message. -/
structure YupErrEntry where
  path : String
  message : String

/-- Raw JS property access `obj[key]` with the path string as a literal key
(no path splitting): object field lookup; arrays answer only canonical
numeric-string keys; other values have no own properties. -/
def rawLookup (t : Val) (key : String) : Val :=
  match t with
  | Val.vObj fs => (lookupKey key fs).getD Val.vUndef
  | Val.vArr es =>
    if key.data ≠ [] && key.data.all Char.isDigit
        && (key == "0" || key.data.head? != some '0') then
      getNth (digitsToNat key.data) es
    else Val.vUndef
  | _ => Val.vUndef

/-- One step of `yupToFormErrors`: the entry is written (via the
path-splitting `setIn`) only when the raw property access
`errors[err.path]` — the unsplit path string as a literal key — is falsy. -/
def yupStep (errors : Val) (err : YupErrEntry) : Val :=
  if (rawLookup errors err.path).truthy then errors
  else setIn errors err.path (Val.vStr err.message)

/-- `yupToFormErrors`: walk the schema's per-path failure list. -/
def yupToFormErrors (inner : List YupErrEntry) : Val :=
  inner.foldl yupStep (Val.vObj [])

/-- The first message the failure list carries for a given path (the value
the specification's first-wins rule would keep). -/
def firstMessageFor (l : List YupErrEntry) (p : String) : Option String :=
  match l with
  | [] => none
  | e :: rest => if e.path = p then some e.message else firstMessageFor rest p

/-- A pluggable schema validator, abstracted (the schema library is an
external collaborator per §1): `none` = the values pass, `some failures` =
the schema rejects with its per-path failure list. -/
abbrev SchemaModel : Type := Val → Option (List YupErrEntry)

/-- `runValidationSchema(values)`: success resolves `{}`, failure resolves
the translated error tree. -/
def runValidationSchema (schema : SchemaModel) (values : Val) : Val :=
  match schema values with
  | none => Val.vObj []
  | some failures => yupToFormErrors failures

/-- Result of invoking the configured whole-form validator
(`this.props.validate(values)`). -/
inductive HandlerRes where
  | undef
  | sync (v : Val)
  | fulfilled
  | rejected (e : Val)

/-- `runValidateHandler(values)`: `undefined` resolves `{}`; a returned
promise resolves `{}` on fulfillment and its rejection payload on
rejection; any other synchronous value resolves to itself. -/
def runValidateHandler (validate : Val → HandlerRes) (values : Val) : Val :=
  match validate values with
  | .undef => Val.vObj []
  | .sync v => v
  | .fulfilled => Val.vObj []
  | .rejected e => e

/-- The configuration surface the claims exercise. -/
structure FormConfig where
  validate : Option (Val → HandlerRes)
  validationSchema : Option SchemaModel
  validateOnChange : Bool
  validateOnBlur : Bool

/-- The schema source of one pipeline run:
`this.props.validationSchema ? this.runValidationSchema(values) : {}`. -/
def schemaPart (cfg : FormConfig) (values : Val) : Val :=
  match cfg.validationSchema with
  | some schema => runValidationSchema schema values
  | none => Val.vObj []

/-- The form-level source of one pipeline run:
`this.props.validate ? this.runValidateHandler(values) : {}`. -/
def handlerPart (cfg : FormConfig) (values : Val) : Val :=
  match cfg.validate with
  | some v => runValidateHandler v values
  | none => Val.vObj []

/-- The merged tree of one full `runValidations` pass: `Promise.all` of the
three sources, then `deepmerge.all` in the fixed order field-level, schema,
form-level. -/
def runValidationsResult (cfg : FormConfig) (fields : Fields) (values : Val) : Val :=
  deepmergeAll
    [ runFieldLevelValidations fields values,
      schemaPart cfg values,
      handlerPart cfg values ]

/-! ## Form state controller -/

/-- The canonical `FormState`. -/
structure FormState where
  values : Val
  initialValues : Val
  errors : Val
  touched : Val
  isValidating : Bool
  isSubmitting : Bool
  status : Option Val
  submitCount : Nat

/-- One controller instance: its state, the mount flag guarding async
settlement, and the field registrations. -/
structure Controller where
  state : FormState
  didMount : Bool
  fields : Fields

/-- The `.then` continuation of `runValidations` settling: only a
still-mounted controller writes `errors` and clears `isValidating`. -/
def runValidationsSettle (c : Controller) (combined : Val) : Controller :=
  if c.didMount then
    { c with state :=
      { c.state with isValidating := false, errors := combined } }
  else c

/-- `runValidations(values)`: synchronously raises `isValidating`, computes
the merged tree, settles under the mount guard, and returns the merged tree
to the caller's `.then`. -/
def runValidations (cfg : FormConfig) (c : Controller) (values : Val) :
    Controller × Val :=
  let c1 := { c with state := { c.state with isValidating := true } }
  let combined := runValidationsResult cfg c.fields values
  (runValidationsSettle c1 combined, combined)

/-- `Object.keys(x).length` (string primitives expose character indices,
arrays element indices, other primitives no keys). -/
def objKeysCount : Val → Nat
  | Val.vObj fs => fs.length
  | Val.vArr es => es.length
  | Val.vStr s => s.length
  | _ => 0

/-- `submitForm()`: mark every leaf of `values` touched, raise
`isSubmitting`, bump `submitCount`, run the full pipeline, then gate on the
merged tree: empty invokes the submit callback once with the current values
(`executeSubmit`), non-empty clears `isSubmitting` without invoking it.
The second component records the submit-callback invocations, each with the
values it was passed. -/
def submitForm (cfg : FormConfig) (c : Controller) : Controller × List Val :=
  let c1 := { c with state :=
    { c.state with
      touched := setNestedObjectValues c.state.values,
      isSubmitting := true,
      submitCount := c.state.submitCount + 1 } }
  let r := runValidations cfg c1 c1.state.values
  if objKeysCount r.2 == 0 then
    (r.1, [r.1.state.values])
  else
    ({ r.1 with state := { r.1.state with isSubmitting := false } }, [])

/-- `resetFormState(values)`: the partial state `resetForm` merges — note it
contains no `initialValues` slot. -/
def resetFormStateApply (values : Val) (st : FormState) : FormState :=
  { st with
    isSubmitting := false
    isValidating := false
    errors := Val.vObj []
    touched := Val.vObj []
    status := none
    values := values
    submitCount := 0 }

/-- `resetForm(nextValues?)`: `nextValues ? nextValues : initialValues` (a
truthiness test), merged through `resetFormState`. -/
def resetForm (c : Controller) (nextValues : Option Val) : Controller :=
  let nv := match nextValues with
    | some v => if v.truthy then v else c.state.initialValues
    | none => c.state.initialValues
  { c with state := resetFormStateApply nv c.state }

/-- Computed `dirty`: `!isEqual(initialValues, values)`. -/
def dirty (c : Controller) : Bool :=
  !(valBeq c.state.initialValues c.state.values)

/-! ## Change handling -/

/-- The fields of a change event's `target` that `executeChange` reads. -/
structure ChangeEvent where
  targetType : String
  name : String
  id : String
  value : String
  checked : Bool

/-- Character-list version of `String.startsWith`. -/
def leadsWith : List Char → List Char → Bool
  | [], _ => true
  | _ :: _, [] => false
  | a :: as, b :: bs => a == b && leadsWith as bs

/-- Substring containment on character lists. -/
def containsSeq (needle : List Char) : List Char → Bool
  | [] => needle.isEmpty
  | c :: cs => leadsWith needle (c :: cs) || containsSeq needle cs

/-- `/pat/.test(s)` for an alternation-free literal pattern: substring
containment. -/
def regexTest (pat s : String) : Bool :=
  containsSeq pat.data s.data

/-- The value coercion of `executeChange`, with JS `parseFloat` abstracted
as a parameter (`none` models a NaN parse result): `number`/`range` input
types parse to float with NaN replaced by the empty string, `checkbox`
types use the checked flag, anything else keeps the raw value.  The
`/number|range/` alternation is the disjunction of its two literals. -/
def coerceEventValue (parseFloat : String → Option Rat) (ev : ChangeEvent) : Val :=
  if regexTest "number" ev.targetType || regexTest "range" ev.targetType then
    match parseFloat ev.value with
    | none => Val.vStr ""
    | some q => Val.vNum q
  else if regexTest "checkbox" ev.targetType then
    Val.vBool ev.checked
  else
    Val.vStr ev.value

/-- The field identifier `executeChange` writes to: `name ? name : id`. -/
def eventField (ev : ChangeEvent) : String :=
  if ev.name ≠ "" then ev.name else ev.id

/-- `handleChange` in event mode (`executeChange`): with a non-empty
identifier the coerced value is written at the field's path and, when
`validateOnChange` is set, the pipeline re-runs against the just-written
tree; with no identifier the state is untouched (only a development
diagnostic is logged). -/
def handleChangeEvent (cfg : FormConfig) (parseFloat : String → Option Rat)
    (c : Controller) (ev : ChangeEvent) : Controller :=
  let field := eventField ev
  if field = "" then c
  else
    let newValues := setIn c.state.values field (coerceEventValue parseFloat ev)
    let c1 := { c with state := { c.state with values := newValues } }
    if cfg.validateOnChange then (runValidations cfg c1 newValues).1
    else c1

/-! ## Single-field validation -/

/-- Outcome of `validateField(field)` at the promise boundary: a settled
state write (or its silent drop when unmounted), an unhandled rejection
from the validator itself (the `.then` installs no rejection handler), or
the TypeError fault of the unguarded registration lookup. -/
inductive ValidateFieldOutcome where
  | settled (c : Controller)
  | unhandledRejection (e : Val)
  | lookupFault

/-- The `.then` continuation of `validateField` settling: a still-mounted
controller writes the field's error slot and clears `isValidating`; an
unmounted one silently drops the write. -/
def validateFieldSettle (c : Controller) (field : String) (error : Val) :
    Controller :=
  if c.didMount then
    { c with state :=
      { c.state with
        errors := setIn c.state.errors field error,
        isValidating := false } }
  else c

/-- `validateField(field)`: raises `isValidating`, then runs
`this.fields[field].validate!(getIn(values, field))` with no guard on the
registration or its validator. -/
def validateField (c : Controller) (field : String) : ValidateFieldOutcome :=
  let c1 := { c with state := { c.state with isValidating := true } }
  match lookupField c.fields field with
  | none => .lookupFault
  | some reg =>
    match reg.validate with
    | none => .lookupFault
    | some vfn =>
      match vfn (getIn c.state.values field) with
      | .ok errVal => .settled (validateFieldSettle c1 field errVal)
      | .err e => .unhandledRejection e

/-! ## Sample instances used by the witnesses -/

/-- A small concrete form state. -/
def sampleState : FormState :=
  { values := Val.vObj [("name", Val.vStr "jared")]
    initialValues := Val.vObj [("name", Val.vStr "jared")]
    errors := Val.vObj []
    touched := Val.vObj []
    isValidating := false
    isSubmitting := false
    status := none
    submitCount := 0 }

/-- A mounted controller with no registered fields. -/
def sampleMounted : Controller :=
  { state := sampleState, didMount := true, fields := [] }

/-- The same controller after unmount. -/
def sampleUnmounted : Controller :=
  { state := sampleState, didMount := false, fields := [] }

/-- A configuration with no validators. -/
def emptyConfig : FormConfig :=
  { validate := none
    validationSchema := none
    validateOnChange := true
    validateOnBlur := true }

/-- A controller with one registered field (`email`) whose validator
resolves `"required"`. -/
def sampleWithEmailField : Controller :=
  { state := sampleState
    didMount := true
    fields := [("email", { validate := some (fun _ => VRes.ok (Val.vStr "required")) })] }

/-- A number-input change event targeting the `age` field. -/
def sampleNumberEvent : ChangeEvent :=
  { targetType := "number", name := "age", id := "", value := "42", checked := false }

/-- A configuration whose whole-form validator always rejects `{x: "bad"}`. -/
def alwaysInvalidConfig : FormConfig :=
  { validate := some (fun _ => HandlerRes.rejected (Val.vObj [("x", Val.vStr "bad")]))
    validationSchema := none
    validateOnChange := true
    validateOnBlur := true }

/-- The spec example's registered fields: `x` with a validator resolving
`"f"`. -/
def exampleFields : Fields :=
  [("x", { validate := some (fun _ => VRes.ok (Val.vStr "f")) })]

/-- The spec example's configuration: a schema failing with messages `"s"`
at `x` and `y`, and a form-level validator returning `{x: "m"}`
synchronously. -/
def exampleConfig : FormConfig :=
  { validate := some (fun _ => HandlerRes.sync (Val.vObj [("x", Val.vStr "m")]))
    validationSchema := some (fun _ => some [⟨"x", "s"⟩, ⟨"y", "s"⟩])
    validateOnChange := true
    validateOnBlur := true }

/-- A single registration whose validator always rejects with `"boom"`. -/
def rejectingFields : Fields :=
  [("email", { validate := some (fun _ => VRes.err (Val.vStr "boom")) })]

/-- A single registration whose validator resolves the reserved sentinel
string. -/
def sentinelFields : Fields :=
  [("a", { validate := some (fun _ => VRes.ok (Val.vStr sentinelStr)) })]

/-! ## Theorems -/

mutual
theorem valBeq_refl : ∀ a : Val, valBeq a a = true
  | .vStr s => by simp [valBeq]
  | .vNum q => by simp [valBeq]
  | .vBool b => by simp [valBeq]
  | .vUndef => by simp [valBeq]
  | .vObj fs => by simp [valBeq, fieldsBeq_refl fs]
  | .vArr es => by simp [valBeq, elemsBeq_refl es]

theorem fieldsBeq_refl : ∀ l : List (String × Val), fieldsBeq l l = true
  | [] => rfl
  | (k, v) :: r => by simp [fieldsBeq, valBeq_refl v, fieldsBeq_refl r]

theorem elemsBeq_refl : ∀ l : List Val, elemsBeq l l = true
  | [] => rfl
  | v :: r => by simp [elemsBeq, valBeq_refl v, elemsBeq_refl r]
end

theorem getSegs_setSegs :
    ∀ (segs : List Seg) (t v : Val), getSegs (setSegs t segs v) segs = v
  | [], t, v => by cases t <;> simp [setSegs, getSegs]
  | Seg.key k :: rest, t, v => by
    cases t <;> simp [setSegs, getSegs, lookupKey, getSegs_setSegs rest]
  | Seg.idx i :: rest, t, v => by
    cases t <;> simp [setSegs, getSegs, getSegs_setSegs rest]

/-- C6: for every tree, path and value, reading back a freshly written path
returns exactly the written value; the accessor is immutable by
construction (it returns a new tree, the input term is unchanged). -/
theorem getIn_setIn_roundtrip (tree : Val) (path : String) (value : Val) :
    getIn (setIn tree path value) path = value :=
  getSegs_setSegs (toPath path) tree value

/-! ## Claims -/

/-- C7: once the controller has unmounted, a validation settlement (full
pipeline or single-field) leaves the controller — in particular its
`errors` and `isValidating` slots — completely unchanged; the write is
silently skipped, and both settle functions are total so no error is
raised. -/
theorem unmounted_settlement_dropped (c : Controller) (combined : Val)
    (field : String) (error : Val) (h : c.didMount = false) :
    runValidationsSettle c combined = c ∧
    validateFieldSettle c field error = c := by
  constructor <;> simp [runValidationsSettle, validateFieldSettle, h]

/-- Witness for C7 at a concrete unmounted controller. -/
theorem unmounted_settlement_dropped_witness :
    runValidationsSettle sampleUnmounted (Val.vObj [("x", Val.vStr "bad")])
        = sampleUnmounted ∧
    validateFieldSettle sampleUnmounted "x" (Val.vStr "bad")
        = sampleUnmounted :=
  unmounted_settlement_dropped sampleUnmounted
    (Val.vObj [("x", Val.vStr "bad")]) "x" (Val.vStr "bad") rfl

/-- C10: `validateField` never reaches the TypeError fault when a
registration with a validator exists at the path, and always faults (the
unguarded `this.fields[field].validate!` lookup) when the registration is
absent or carries no validator. -/
theorem validateField_lookup_guard (c : Controller) (field : String) :
    (∀ vfn, fieldValidatorLookup c.fields field = some vfn →
      validateField c field ≠ ValidateFieldOutcome.lookupFault) ∧
    (fieldValidatorLookup c.fields field = none →
      validateField c field = ValidateFieldOutcome.lookupFault) := by
  cases hl : lookupField c.fields field with
  | none =>
    refine ⟨fun vfn h => ?_, fun _ => ?_⟩
    · simp [fieldValidatorLookup, hl] at h
    · simp [validateField, hl]
  | some reg =>
    cases hv : reg.validate with
    | none =>
      refine ⟨fun vfn h => ?_, fun _ => ?_⟩
      · simp [fieldValidatorLookup, hl, hv] at h
      · simp [validateField, hl, hv]
    | some vfn' =>
      refine ⟨fun vfn _ => ?_, fun h => ?_⟩
      · simp only [validateField, hl, hv]
        cases vfn' (getIn c.state.values field) <;> simp
      · simp [fieldValidatorLookup, hl, hv] at h

/-- Witness for C10: with the `email` registration present the operation
does not fault; at an unregistered path it faults. -/
theorem validateField_lookup_guard_witness :
    validateField sampleWithEmailField "email"
        ≠ ValidateFieldOutcome.lookupFault ∧
    validateField sampleWithEmailField "missing"
        = ValidateFieldOutcome.lookupFault :=
  ⟨(validateField_lookup_guard sampleWithEmailField "email").1
      (fun _ => VRes.ok (Val.vStr "required")) rfl,
    (validateField_lookup_guard sampleWithEmailField "missing").2 rfl⟩

theorem lookupKey_setKey_ne (p q : String) (hne : q ≠ p) (v : Val) :
    ∀ fs, lookupKey p (setKey q v fs) = lookupKey p fs
  | [] => by simp [setKey, lookupKey, hne]
  | (k', v') :: rest => by
    by_cases h : k' = q
    · subst h; simp [setKey, lookupKey, hne]
    · by_cases h2 : k' = p
      · subst h2; simp [setKey, lookupKey, h]
      · simp [setKey, lookupKey, h, h2, lookupKey_setKey_ne p q hne v rest]

theorem tokenizeAux_sep_free :
    ∀ (cs acc : List Char), (∀ c ∈ acc, isSep c = false) →
      ∀ t ∈ tokenizeAux acc cs, ∀ c ∈ t, isSep c = false
  | [], acc, hacc, t, ht, c, hc => by
    by_cases he : acc.isEmpty <;> simp [tokenizeAux, he] at ht
    subst ht
    exact hacc c (List.mem_reverse.mp hc)
  | c' :: cs, acc, hacc, t, ht, c, hc => by
    by_cases hs : isSep c'
    · by_cases he : acc.isEmpty
      · simp [tokenizeAux, hs, he] at ht
        exact tokenizeAux_sep_free cs [] (by simp) t ht c hc
      · simp [tokenizeAux, hs, he] at ht
        rcases ht with ht | ht
        · subst ht; exact hacc c (List.mem_reverse.mp hc)
        · exact tokenizeAux_sep_free cs [] (by simp) t ht c hc
    · simp [tokenizeAux, hs] at ht
      refine tokenizeAux_sep_free cs (c' :: acc) ?_ t ht c hc
      intro d hd
      rcases List.mem_cons.mp hd with hd | hd
      · subst hd; simpa using hs
      · exact hacc d hd

theorem tokenizeAux_length_of_no_sep :
    ∀ (cs acc : List Char), (∀ c ∈ cs, isSep c = false) →
      (tokenizeAux acc cs).length ≤ 1
  | [], acc, _ => by
    by_cases he : acc.isEmpty <;> simp [tokenizeAux, he]
  | c :: cs, acc, h => by
    have hc : isSep c = false := h c (by simp)
    simp only [tokenizeAux, hc, Bool.false_eq_true, if_false]
    exact tokenizeAux_length_of_no_sep cs (c :: acc)
      (fun c' hc' => h c' (List.mem_cons_of_mem c hc'))

theorem exists_sep_of_two_tokens (p : String) (h2 : 2 ≤ (toPath p).length) :
    ∃ c ∈ p.data, isSep c = true := by
  by_contra hno
  push_neg at hno
  have hlen : (toPath p).length ≤ 1 := by
    rw [toPath, List.length_map]
    exact tokenizeAux_length_of_no_sep p.data []
      (fun c hc => by simpa using hno c hc)
  omega

/-- After writing a multi-segment path with `setIn`, the raw property
access with the unsplit path string finds nothing: the written tree keys
are separator-free tokens (or array slots), while the path string contains
a separator. -/
theorem rawLookup_of_multiseg (p : String) (v : Val)
    (h2 : 2 ≤ (toPath p).length) :
    rawLookup (setSegs (Val.vObj []) (toPath p) v) p = Val.vUndef := by
  obtain ⟨c, hcp, hcsep⟩ := exists_sep_of_two_tokens p h2
  cases htok : tokenizeAux [] p.data with
  | nil => rw [toPath, htok] at h2; simp at h2
  | cons t0 ts =>
    have htp : toPath p = segOfToken t0 :: ts.map segOfToken := by
      rw [toPath, htok]; rfl
    have ht0free : ∀ ch ∈ t0, isSep ch = false := by
      intro ch hch
      exact tokenizeAux_sep_free p.data [] (by simp) t0
        (htok ▸ List.mem_cons_self t0 ts) ch hch
    cases hts : ts.map segOfToken with
    | nil => rw [htp, hts] at h2; simp at h2
    | cons s1 rest =>
      rw [htp, hts]
      cases hseg : segOfToken t0 with
      | key k0 =>
        have hk0 : k0.data = t0 := by
          unfold segOfToken at hseg
          by_cases hd : (t0 ≠ [] && t0.all Char.isDigit) = true
          · rw [if_pos hd] at hseg; cases hseg
          · rw [if_neg hd] at hseg
            cases hseg; rfl
        have hne : k0 ≠ p := by
          intro he
          have hck : c ∈ k0.data := by rw [he]; exact hcp
          have := ht0free c (hk0 ▸ hck)
          rw [hcsep] at this; cases this
        simp [setSegs, lookupKey, setKey, rawLookup, hne]
      | idx i =>
        have hcd : c.isDigit = false := by
          have hd : c = '.' ∨ c = '[' ∨ c = ']' := by
            simpa [isSep, or_assoc] using hcsep
          rcases hd with h | h | h <;> subst h <;> decide
        have hall : p.data.all Char.isDigit = false := by
          rw [List.all_eq_false]
          exact ⟨c, hcp, by simp [hcd]⟩
        simp [setSegs, rawLookup, hall]

theorem yupFold_preserved (p : String) (cv : Val) (ht : cv.truthy = true) :
    ∀ (l : List YupErrEntry) (fs : List (String × Val)),
      (∀ e ∈ l, toPath e.path = [Seg.key e.path]) →
      lookupKey p fs = some cv →
      getSegs (l.foldl yupStep (Val.vObj fs)) [Seg.key p] = cv
  | [], fs, _, hcur => by simp [getSegs, hcur]
  | e :: rest, fs, hall, hcur => by
    have hallr : ∀ e' ∈ rest, toPath e'.path = [Seg.key e'.path] :=
      fun e' he' => hall e' (List.mem_cons_of_mem e he')
    rw [List.foldl_cons]
    by_cases hskip : (rawLookup (Val.vObj fs) e.path).truthy
    · rw [show yupStep (Val.vObj fs) e = Val.vObj fs from by simp [yupStep, hskip]]
      exact yupFold_preserved p cv ht rest fs hallr hcur
    · by_cases hpq : e.path = p
      · exfalso
        apply hskip
        rw [hpq]
        simp [rawLookup, hcur, ht]
      · rw [show yupStep (Val.vObj fs) e
            = Val.vObj (setKey e.path (Val.vStr e.message) fs) from by
          simp [yupStep, hskip, setIn, hall e (by simp), setSegs]]
        exact yupFold_preserved p cv ht rest _ hallr
          (by rw [lookupKey_setKey_ne p e.path hpq _ fs]; exact hcur)

theorem yupFold_first_written (p m : String)
    (ht : Val.truthy (Val.vStr m) = true) :
    ∀ (l : List YupErrEntry) (fs : List (String × Val)),
      (∀ e ∈ l, toPath e.path = [Seg.key e.path]) →
      lookupKey p fs = none →
      firstMessageFor l p = some m →
      getSegs (l.foldl yupStep (Val.vObj fs)) [Seg.key p] = Val.vStr m
  | [], fs, _, _, hfirst => by simp [firstMessageFor] at hfirst
  | e :: rest, fs, hall, hnone, hfirst => by
    have hallr : ∀ e' ∈ rest, toPath e'.path = [Seg.key e'.path] :=
      fun e' he' => hall e' (List.mem_cons_of_mem e he')
    rw [List.foldl_cons]
    by_cases hpq : e.path = p
    · have hm : e.message = m := by
        have := hfirst
        simp [firstMessageFor, hpq] at this
        exact this
      have hskip : (rawLookup (Val.vObj fs) e.path).truthy = false := by
        simp [rawLookup, hpq, hnone, Val.truthy]
      rw [show yupStep (Val.vObj fs) e
          = Val.vObj (setKey e.path (Val.vStr e.message) fs) from by
        simp [yupStep, hskip, setIn, hall e (by simp), setSegs]]
      rw [← hm]
      refine yupFold_preserved p (Val.vStr e.message) ?_ rest _ hallr ?_
      · rw [hm]; exact ht
      · rw [hpq]
        exact lookupKey_setKey p (Val.vStr e.message) fs
    · have hfr : firstMessageFor rest p = some m := by
        have := hfirst
        simp [firstMessageFor, hpq] at this
        exact this
      by_cases hskip : (rawLookup (Val.vObj fs) e.path).truthy
      · rw [show yupStep (Val.vObj fs) e = Val.vObj fs from by
          simp [yupStep, hskip]]
        exact yupFold_first_written p m ht rest fs hallr hnone hfr
      · rw [show yupStep (Val.vObj fs) e
            = Val.vObj (setKey e.path (Val.vStr e.message) fs) from by
          simp [yupStep, hskip, setIn, hall e (by simp), setSegs]]
        exact yupFold_first_written p m ht rest _ hallr
          (by rw [lookupKey_setKey_ne p e.path hpq _ fs]; exact hnone) hfr

/-- C3 counterexample: for the nested path `a.b` duplicated in the failure
list, the translated tree keeps the SECOND message, refuting first-wins on
nested paths: the dedup guard reads `errors["a.b"]` with the unsplit path
as a literal key, while the first entry was stored nested under `a`, so
the guard never fires and the later write overwrites the earlier one. -/
theorem yupToFormErrors_nested_counterexample :
    getIn (yupToFormErrors [⟨"a.b", "first"⟩, ⟨"a.b", "second"⟩]) "a.b"
        = Val.vStr "second" ∧
    Val.vStr "second" ≠ Val.vStr "first" :=
  ⟨rfl, by simp⟩

/-- C3 amended: the first message encountered for a path is kept only for
single-segment identifier paths (given the kept message is a non-empty
string); for a path of two or more segments the raw-key dedup guard never
sees the stored entry, so the LAST message for that path wins. -/
theorem yupToFormErrors_first_wins_amended :
    (∀ (l : List YupErrEntry) (p m : String),
      (∀ e ∈ l, toPath e.path = [Seg.key e.path]) →
      firstMessageFor l p = some m → m ≠ "" →
      getSegs (yupToFormErrors l) [Seg.key p] = Val.vStr m) ∧
    (∀ (p m1 m2 : String), 2 ≤ (toPath p).length →
      getSegs (yupToFormErrors [⟨p, m1⟩, ⟨p, m2⟩]) (toPath p) = Val.vStr m2) := by
  constructor
  · intro l p m hall hfirst hm
    exact yupFold_first_written p m (by simp [Val.truthy, hm]) l [] hall rfl hfirst
  · intro p m1 m2 h2
    show getSegs (([⟨p, m1⟩, ⟨p, m2⟩] : List YupErrEntry).foldl yupStep
      (Val.vObj [])) (toPath p) = _
    rw [List.foldl_cons, List.foldl_cons, List.foldl_nil]
    rw [show yupStep (Val.vObj []) ⟨p, m1⟩
        = setSegs (Val.vObj []) (toPath p) (Val.vStr m1) from by
      simp [yupStep, rawLookup, lookupKey, Val.truthy, setIn]]
    rw [show yupStep (setSegs (Val.vObj []) (toPath p) (Val.vStr m1)) ⟨p, m2⟩
        = setSegs (setSegs (Val.vObj []) (toPath p) (Val.vStr m1)) (toPath p)
            (Val.vStr m2) from by
      simp [yupStep, rawLookup_of_multiseg p (Val.vStr m1) h2, Val.truthy, setIn]]
    exact getSegs_setSegs (toPath p) _ _

/-- Witness for C3 amended: the spec scenario (two failures at top-level
path `name`) keeps `"too short"`, and the nested-path clause at `a.b`. -/
theorem yupToFormErrors_first_wins_amended_witness :
    getSegs (yupToFormErrors [⟨"name", "too short"⟩, ⟨"name", "also bad"⟩])
        [Seg.key "name"] = Val.vStr "too short" ∧
    getSegs (yupToFormErrors [⟨"a.b", "1st"⟩, ⟨"a.b", "2nd"⟩]) (toPath "a.b")
        = Val.vStr "2nd" :=
  ⟨yupToFormErrors_first_wins_amended.1
      [⟨"name", "too short"⟩, ⟨"name", "also bad"⟩] "name" "too short"
      (by intro e he; fin_cases he <;> rfl) rfl (by decide),
    yupToFormErrors_first_wins_amended.2 "a.b" "1st" "2nd" (by decide)⟩

/-- C5 counterexample: `resetForm(nextValues)` does not replace
`initialValues` (the partial state `resetFormState` builds has no
`initialValues` slot), so after resetting the sample form with
`{name: "b"}` the stored `initialValues` is still `{name: "jared"}` — and
`dirty` is `true` immediately after the reset, contradicting the claim. -/
theorem resetForm_initialValues_counterexample :
    (resetForm sampleMounted (some (Val.vObj [("name", Val.vStr "b")]))).state.values
        = Val.vObj [("name", Val.vStr "b")] ∧
    (resetForm sampleMounted (some (Val.vObj [("name", Val.vStr "b")]))).state.initialValues
        = Val.vObj [("name", Val.vStr "jared")] ∧
    Val.vObj [("name", Val.vStr "jared")] ≠ Val.vObj [("name", Val.vStr "b")] ∧
    dirty (resetForm sampleMounted (some (Val.vObj [("name", Val.vStr "b")]))) = true := by
  refine ⟨rfl, rfl, ?_, rfl⟩
  simp

/-- C5 amended: `resetForm(nextValues?)` sets `values` to `nextValues` when
that is truthy and to the stored `initialValues` otherwise, leaves
`initialValues` unchanged, clears `errors`/`touched`/`status`, resets
`submitCount` and both flags; `dirty` is false immediately after a reset
with no argument, and an immediately repeated reset yields the identical
state. -/
theorem resetForm_amended (c : Controller) (nv : Option Val) :
    (resetForm c nv).state.values = (match nv with
      | some v => if v.truthy then v else c.state.initialValues
      | none => c.state.initialValues) ∧
    (resetForm c nv).state.initialValues = c.state.initialValues ∧
    (resetForm c nv).state.errors = Val.vObj [] ∧
    (resetForm c nv).state.touched = Val.vObj [] ∧
    (resetForm c nv).state.status = none ∧
    (resetForm c nv).state.submitCount = 0 ∧
    (resetForm c nv).state.isSubmitting = false ∧
    (resetForm c nv).state.isValidating = false ∧
    (nv = none → dirty (resetForm c nv) = false) ∧
    resetForm (resetForm c nv) nv = resetForm c nv := by
  cases nv with
  | none =>
    simp [resetForm, resetFormStateApply, dirty, valBeq_refl]
  | some v =>
    by_cases htv : v.truthy <;>
      simp [resetForm, resetFormStateApply, dirty, valBeq_refl, htv]

/-- Witness for C5 amended at a concrete controller and `nextValues`. -/
theorem resetForm_amended_witness :
    dirty (resetForm sampleMounted none) = false ∧
    resetForm (resetForm sampleMounted none) none = resetForm sampleMounted none :=
  ⟨(resetForm_amended sampleMounted none).2.2.2.2.2.2.2.2.1 rfl,
    (resetForm_amended sampleMounted none).2.2.2.2.2.2.2.2.2⟩

/-- C8: with a non-empty identifier (the target's `name`, falling back to
`id`), `handleChange` writes the coerced event value at that path;
`number`/`range` input types take the float parse with a NaN parse replaced
by the empty string, `checkbox` types take the checked flag, and all others
the raw value. -/
theorem handleChange_writes_coerced (cfg : FormConfig)
    (parseFloat : String → Option Rat) (c : Controller) (ev : ChangeEvent)
    (h : eventField ev ≠ "") :
    (handleChangeEvent cfg parseFloat c ev).state.values
        = setIn c.state.values (eventField ev) (coerceEventValue parseFloat ev) ∧
    getIn (handleChangeEvent cfg parseFloat c ev).state.values (eventField ev)
        = coerceEventValue parseFloat ev ∧
    ((regexTest "number" ev.targetType || regexTest "range" ev.targetType) = true →
      (parseFloat ev.value = none → coerceEventValue parseFloat ev = Val.vStr "") ∧
      (∀ q, parseFloat ev.value = some q → coerceEventValue parseFloat ev = Val.vNum q)) ∧
    ((regexTest "number" ev.targetType || regexTest "range" ev.targetType) = false →
      (regexTest "checkbox" ev.targetType = true →
        coerceEventValue parseFloat ev = Val.vBool ev.checked) ∧
      (regexTest "checkbox" ev.targetType = false →
        coerceEventValue parseFloat ev = Val.vStr ev.value)) := by
  have hval : (handleChangeEvent cfg parseFloat c ev).state.values
      = setIn c.state.values (eventField ev) (coerceEventValue parseFloat ev) := by
    cases hvc : cfg.validateOnChange <;>
      cases hdm : c.didMount <;>
        simp [handleChangeEvent, h, hvc, hdm, runValidations, runValidationsSettle]
  refine ⟨hval, ?_, ?_, ?_⟩
  · rw [hval]
    exact getIn_setIn_roundtrip c.state.values (eventField ev)
      (coerceEventValue parseFloat ev)
  · intro hnum
    refine ⟨fun hpf => ?_, fun q hpf => ?_⟩ <;>
      simp [coerceEventValue, hnum, hpf]
  · intro hnum
    refine ⟨fun hcb => ?_, fun hcb => ?_⟩ <;>
      simp [coerceEventValue, hnum, hcb]

/-- Witness for C8 at a concrete number-input event whose parse yields 42. -/
theorem handleChange_writes_coerced_witness :
    (handleChangeEvent emptyConfig (fun _ => some (42 : Rat)) sampleMounted
        sampleNumberEvent).state.values
      = setIn sampleMounted.state.values (eventField sampleNumberEvent)
          (coerceEventValue (fun _ => some (42 : Rat)) sampleNumberEvent) :=
  (handleChange_writes_coerced emptyConfig (fun _ => some (42 : Rat))
    sampleMounted sampleNumberEvent (by decide)).1

/-- C1: `submitForm` gates the submit callback on the merged error tree of
the full pipeline run against the current values: an empty tree invokes the
callback exactly once with the current values; a non-empty tree invokes it
not at all and clears `isSubmitting`. -/
theorem submitForm_gates_on_merged_errors (cfg : FormConfig) (c : Controller) :
    (objKeysCount (runValidationsResult cfg c.fields c.state.values) = 0 →
      (submitForm cfg c).2 = [c.state.values]) ∧
    (objKeysCount (runValidationsResult cfg c.fields c.state.values) ≠ 0 →
      (submitForm cfg c).2 = [] ∧
      (submitForm cfg c).1.state.isSubmitting = false) := by
  constructor
  · intro h0
    cases hdm : c.didMount <;>
      simp [submitForm, runValidations, runValidationsSettle, hdm, h0]
  · intro h1
    cases hdm : c.didMount <;>
      simp [submitForm, runValidations, runValidationsSettle, hdm, h1]

theorem lookupKey_of_not_keyMem (k : String) :
    ∀ fs : List (String × Val), keyMem k (fs.map Prod.fst) = false →
      lookupKey k fs = none
  | [], _ => rfl
  | (k', v) :: rest, h => by
    simp [keyMem] at h
    simp [lookupKey, h.1, lookupKey_of_not_keyMem k rest h.2]

theorem lookupKey_dmInsert_same (k : String) (w : Val) :
    ∀ fs, lookupKey k (dmInsert fs k w)
      = some (match lookupKey k fs with
          | some v => deepmerge v w
          | none => w)
  | [] => by simp [dmInsert, lookupKey]
  | (k', v) :: rest => by
    by_cases h : k' = k
    · subst h; simp [dmInsert, lookupKey]
    · simp [dmInsert, lookupKey, h, lookupKey_dmInsert_same k w rest]

theorem lookupKey_dmInsert_ne (k k' : String) (hne : k' ≠ k) (w : Val) :
    ∀ fs, lookupKey k (dmInsert fs k' w) = lookupKey k fs
  | [] => by simp [dmInsert, lookupKey, hne]
  | (k'', v) :: rest => by
    by_cases h : k'' = k'
    · subst h
      have h2 : k'' ≠ k := hne
      simp [dmInsert, lookupKey, h2]
    · by_cases h2 : k'' = k <;>
        simp [dmInsert, lookupKey, h, h2, Ne.symm hne,
          lookupKey_dmInsert_ne k k' hne w rest]

theorem lookupKey_dmFold (k : String) :
    ∀ (gs fs : List (String × Val)),
      keysDistinct (gs.map Prod.fst) = true →
      lookupKey k (dmFold fs gs)
        = match lookupKey k fs, lookupKey k gs with
          | some v, some w => some (deepmerge v w)
          | some v, none => some v
          | none, o => o
  | [], fs, _ => by
    simp [dmFold, lookupKey]
    cases lookupKey k fs <;> simp
  | (k', w') :: rest, fs, hd => by
    have hd' : keysDistinct (rest.map Prod.fst) = true := by
      simp [keysDistinct] at hd; exact hd.2
    have hnm : keyMem k' (rest.map Prod.fst) = false := by
      simp [keysDistinct] at hd; simpa using hd.1
    rw [show dmFold fs ((k', w') :: rest) = dmFold (dmInsert fs k' w') rest from
      by simp [dmFold]]
    rw [lookupKey_dmFold k rest (dmInsert fs k' w') hd']
    by_cases h : k' = k
    · subst h
      rw [lookupKey_dmInsert_same k' w' fs,
        lookupKey_of_not_keyMem k' rest hnm]
      cases lookupKey k' fs <;> simp [lookupKey]
    · rw [lookupKey_dmInsert_ne k k' h w' fs]
      simp [lookupKey, Ne.symm h]
      cases lookupKey k fs <;> cases lookupKey k rest <;> simp [h]

theorem lookupKey_dmFold_of_absent (k : String) :
    ∀ (gs fs : List (String × Val)), lookupKey k gs = none →
      lookupKey k (dmFold fs gs) = lookupKey k fs
  | [], fs, _ => by simp [dmFold]
  | (k', w') :: rest, fs, h => by
    have hk : k' ≠ k := by
      intro e; simp [lookupKey, e] at h
    have hrest : lookupKey k rest = none := by
      simpa [lookupKey, hk] using h
    rw [show dmFold fs ((k', w') :: rest) = dmFold (dmInsert fs k' w') rest from
      by simp [dmFold]]
    rw [lookupKey_dmFold_of_absent k rest (dmInsert fs k' w') hrest,
      lookupKey_dmInsert_ne k k' hk w' fs]

theorem wfKeys_of_lookup (k : String) (w : Val) :
    ∀ fs : List (String × Val), wfFieldsKeys fs = true →
      lookupKey k fs = some w → wfKeys w = true
  | [], _, h => by simp [lookupKey] at h
  | (k', v) :: rest, hwf, h => by
    rw [show wfFieldsKeys ((k', v) :: rest) = (wfKeys v && wfFieldsKeys rest) from
      by simp [wfFieldsKeys]] at hwf
    simp at hwf
    by_cases hk : k' = k
    · subst hk
      simp [lookupKey] at h
      exact h ▸ hwf.1
    · simp [lookupKey, hk] at h
      exact wfKeys_of_lookup k w rest hwf.2 h

theorem deepmerge_eq_right (a b : Val) (h : Val.isObjV b = false) :
    deepmerge a b = b := by
  cases a <;> cases b <;> simp_all [deepmerge, Val.isObjV]

/-- The later tree's present leaves win: wherever the right (later) tree
holds a present non-object value, the merged tree agrees with it. -/
theorem getSegs_deepmerge_later :
    ∀ (p : List Seg) (a b : Val), wfKeys b = true →
      Val.isMergeLeaf (getSegs b p) = true →
      getSegs (deepmerge a b) p = getSegs b p
  | [], a, b, _, hleaf => by
    have hb : Val.isObjV b = false := by
      cases b <;> simp_all [getSegs, Val.isMergeLeaf, Val.isObjV]
    rw [deepmerge_eq_right a b hb]
  | Seg.key k :: rest, a, b, hwf, hleaf => by
    cases b with
    | vObj gs =>
      cases a with
      | vObj fs =>
        rw [show wfKeys (Val.vObj gs)
            = (keysDistinct (gs.map Prod.fst) && wfFieldsKeys gs) from
          by simp [wfKeys]] at hwf
        simp at hwf
        cases hg : lookupKey k gs with
        | none => simp [getSegs, hg, Val.isMergeLeaf] at hleaf
        | some w =>
          have hw : wfKeys w = true := wfKeys_of_lookup k w gs hwf.2 hg
          have hl : Val.isMergeLeaf (getSegs w rest) = true := by
            simpa [getSegs, hg] using hleaf
          have hfold := lookupKey_dmFold k gs fs hwf.1
          rw [hg] at hfold
          rw [show deepmerge (Val.vObj fs) (Val.vObj gs)
              = Val.vObj (dmFold fs gs) from by simp [deepmerge]]
          cases hf : lookupKey k fs with
          | some v =>
            rw [hf] at hfold
            simp [getSegs, hfold, hg]
            exact getSegs_deepmerge_later rest v w hw hl
          | none =>
            rw [hf] at hfold
            simp [getSegs, hfold, hg]
      | vStr s => rw [show deepmerge (Val.vStr s) (Val.vObj gs) = Val.vObj gs from by simp [deepmerge]]
      | vNum q => rw [show deepmerge (Val.vNum q) (Val.vObj gs) = Val.vObj gs from by simp [deepmerge]]
      | vBool bb => rw [show deepmerge (Val.vBool bb) (Val.vObj gs) = Val.vObj gs from by simp [deepmerge]]
      | vUndef => rw [show deepmerge Val.vUndef (Val.vObj gs) = Val.vObj gs from by simp [deepmerge]]
      | vArr es => rw [show deepmerge (Val.vArr es) (Val.vObj gs) = Val.vObj gs from by simp [deepmerge]]
    | vStr s => rw [deepmerge_eq_right a _ (by simp [Val.isObjV])]
    | vNum q => rw [deepmerge_eq_right a _ (by simp [Val.isObjV])]
    | vBool bb => rw [deepmerge_eq_right a _ (by simp [Val.isObjV])]
    | vUndef => rw [deepmerge_eq_right a _ (by simp [Val.isObjV])]
    | vArr es => rw [deepmerge_eq_right a _ (by simp [Val.isObjV])]
  | Seg.idx i :: rest, a, b, hwf, hleaf => by
    cases b with
    | vObj gs => simp [getSegs, Val.isMergeLeaf] at hleaf
    | vStr s => rw [deepmerge_eq_right a _ (by simp [Val.isObjV])]
    | vNum q => rw [deepmerge_eq_right a _ (by simp [Val.isObjV])]
    | vBool bb => rw [deepmerge_eq_right a _ (by simp [Val.isObjV])]
    | vUndef => rw [deepmerge_eq_right a _ (by simp [Val.isObjV])]
    | vArr es => rw [deepmerge_eq_right a _ (by simp [Val.isObjV])]

/-- C2: `runValidations` deep-merges field-level, then schema, then
form-level, later leaf wins: (i) wherever the form-level (latest) source
holds a present leaf the merged tree agrees with it; (ii) at a top-level
key absent from the form-level source, a present schema leaf decides the
merged value; (iii) concretely, field error `{x:"f"}`, schema error
`{x:"s", y:"s"}` and form error `{x:"m"}` merge to `{x:"m", y:"s"}`. -/
theorem runValidations_merge_precedence (cfg : FormConfig) (fields : Fields)
    (values : Val) :
    (∀ p : List Seg, wfKeys (handlerPart cfg values) = true →
      Val.isMergeLeaf (getSegs (handlerPart cfg values) p) = true →
      getSegs (runValidationsResult cfg fields values) p
        = getSegs (handlerPart cfg values) p) ∧
    (∀ (k : String) (hs xs : List (String × Val)),
      handlerPart cfg values = Val.vObj hs →
      lookupKey k hs = none →
      deepmerge (deepmerge (Val.vObj []) (runFieldLevelValidations fields values))
          (schemaPart cfg values) = Val.vObj xs →
      wfKeys (schemaPart cfg values) = true →
      Val.isMergeLeaf (getSegs (schemaPart cfg values) [Seg.key k]) = true →
      getSegs (runValidationsResult cfg fields values) [Seg.key k]
        = getSegs (schemaPart cfg values) [Seg.key k]) ∧
    runValidationsResult exampleConfig exampleFields (Val.vObj [])
      = Val.vObj [("x", Val.vStr "m"), ("y", Val.vStr "s")] := by
  have hres : runValidationsResult cfg fields values
      = deepmerge (deepmerge (deepmerge (Val.vObj [])
          (runFieldLevelValidations fields values)) (schemaPart cfg values))
        (handlerPart cfg values) := by
    simp [runValidationsResult, deepmergeAll]
  refine ⟨?_, ?_, ?_⟩
  · intro p hwf hleaf
    rw [hres]
    exact getSegs_deepmerge_later p _ _ hwf hleaf
  · intro k hs xs hh hlk hX hwfs hleaf
    have hXval : getSegs (Val.vObj xs) [Seg.key k]
        = getSegs (schemaPart cfg values) [Seg.key k] := by
      rw [← hX]
      exact getSegs_deepmerge_later [Seg.key k] _ _ hwfs hleaf
    rw [hres, hh, hX, ← hXval]
    rw [show deepmerge (Val.vObj xs) (Val.vObj hs) = Val.vObj (dmFold xs hs) from
      by simp [deepmerge]]
    have hN := lookupKey_dmFold_of_absent k hs xs hlk
    simp [getSegs, hN]
  · simp [runValidationsResult, runFieldLevelValidations, validatorEntries,
      reduceErrors, reduceStep, Val.isSentinel, sentinelStr, Val.truthy,
      VRes.settle, setIn, setSegs, toPath, tokenizeAux, segOfToken, isSep,
      digitsToNat, lookupKey, setKey, getIn, getSegs, rawLookup,
      yupToFormErrors, yupStep, runValidationSchema, schemaPart, handlerPart,
      runValidateHandler, deepmergeAll, deepmerge, dmFold, dmInsert,
      exampleConfig, exampleFields]

/-- Witness for C2 at the concrete example: the form-level leaf `{x:"m"}`
wins at `x`, and the schema leaf `"s"` decides `y`, which the form-level
source does not mention. -/
theorem runValidations_merge_precedence_witness :
    getSegs (runValidationsResult exampleConfig exampleFields (Val.vObj []))
        [Seg.key "x"]
      = getSegs (handlerPart exampleConfig (Val.vObj [])) [Seg.key "x"] ∧
    getSegs (runValidationsResult exampleConfig exampleFields (Val.vObj []))
        [Seg.key "y"]
      = getSegs (schemaPart exampleConfig (Val.vObj [])) [Seg.key "y"] := by
  constructor
  · exact (runValidations_merge_precedence exampleConfig exampleFields
      (Val.vObj [])).1 [Seg.key "x"] (by rfl) (by rfl)
  · exact (runValidations_merge_precedence exampleConfig exampleFields
      (Val.vObj [])).2.1 "y" [("x", Val.vStr "m")]
      [("x", Val.vStr "s"), ("y", Val.vStr "s")] (by rfl) (by rfl)
      (by simp [runFieldLevelValidations, validatorEntries, reduceErrors,
        reduceStep, Val.isSentinel, sentinelStr, Val.truthy, VRes.settle,
        setIn, setSegs, toPath, tokenizeAux, segOfToken, isSep, digitsToNat,
        lookupKey, setKey, getIn, getSegs, rawLookup, yupToFormErrors,
        yupStep, runValidationSchema, schemaPart, exampleConfig, exampleFields,
        deepmerge, dmFold, dmInsert])
      (by rfl) (by rfl)

/-- Witness for C1: with no validators the sample submit invokes the
callback once with the current values; with an always-rejecting form
validator it is not invoked and `isSubmitting` ends false. -/
theorem submitForm_gates_witness :
    (submitForm emptyConfig sampleMounted).2 = [sampleMounted.state.values] ∧
    (submitForm alwaysInvalidConfig sampleMounted).2 = [] ∧
    (submitForm alwaysInvalidConfig sampleMounted).1.state.isSubmitting = false := by
  refine ⟨(submitForm_gates_on_merged_errors emptyConfig sampleMounted).1 ?_,
    ((submitForm_gates_on_merged_errors alwaysInvalidConfig sampleMounted).2 ?_).1,
    ((submitForm_gates_on_merged_errors alwaysInvalidConfig sampleMounted).2 ?_).2⟩ <;>
    simp [runValidationsResult, runFieldLevelValidations, validatorEntries,
      reduceErrors, reduceStep, Val.isSentinel, sentinelStr, Val.truthy,
      runValidateHandler, deepmergeAll, deepmerge, dmFold, dmInsert,
      schemaPart, handlerPart, objKeysCount, emptyConfig, alwaysInvalidConfig,
      sampleMounted, sampleState]

theorem keyMem_eq_false (a : String) :
    ∀ l : List String, keyMem a l = false ↔ a ∉ l
  | [] => by simp [keyMem]
  | b :: rest => by
    have hrec := keyMem_eq_false a rest
    constructor
    · intro h hm
      have hsplit : (b == a) = false ∧ keyMem a rest = false := by
        simpa [keyMem, Bool.or_eq_false_iff] using h
      rcases List.mem_cons.mp hm with he | hm'
      · subst he
        simp at hsplit
      · exact (hrec.mp hsplit.2) hm'
    · intro h
      have h1 : (b == a) = false := by
        refine beq_eq_false_iff_ne.mpr ?_
        intro e
        exact h (e ▸ List.mem_cons_self b rest)
      have h2 : keyMem a rest = false :=
        hrec.mpr (fun hm => h (List.mem_cons_of_mem b hm))
      simp [keyMem, h1, h2]

theorem reduceStep_skip (prev : Val) (g : String) (c : Val)
    (h : (c.isSentinel || !c.truthy) = true) : reduceStep prev g c = prev := by
  rcases Bool.or_eq_true_iff.mp h with h1 | h1
  · simp [reduceStep, h1]
  · cases hsent : c.isSentinel <;>
      simp_all [reduceStep]

theorem getSegs_setSegs_key_ne (f g : String) (hne : g ≠ f) (v : Val) :
    ∀ t, getSegs (setSegs t [Seg.key g] v) [Seg.key f] = getSegs t [Seg.key f]
  | Val.vObj fs => by
    simp [setSegs, getSegs, lookupKey_setKey_ne f g hne v fs]
  | Val.vStr s => by simp [setSegs, getSegs, lookupKey, hne]
  | Val.vNum q => by simp [setSegs, getSegs, lookupKey, hne]
  | Val.vBool b => by simp [setSegs, getSegs, lookupKey, hne]
  | Val.vUndef => by simp [setSegs, getSegs, lookupKey, hne]
  | Val.vArr es => by simp [setSegs, getSegs, lookupKey, hne]

theorem reduceErrors_preserves (f : String) :
    ∀ (pairs : List (String × Val)) (prev : Val),
      (∀ g ∈ pairs.map Prod.fst, toPath g = [Seg.key g]) →
      keyMem f (pairs.map Prod.fst) = false →
      getSegs (reduceErrors prev pairs) [Seg.key f] = getSegs prev [Seg.key f]
  | [], prev, _, _ => rfl
  | (g, c) :: rest, prev, hplain, hmem => by
    have hgf : g ≠ f := by
      intro e
      simp [keyMem, e] at hmem
    have hrest : keyMem f (rest.map Prod.fst) = false := by
      simp [keyMem] at hmem
      simpa using hmem.2
    rw [show reduceErrors prev ((g, c) :: rest)
        = reduceErrors (reduceStep prev g c) rest from by simp [reduceErrors]]
    rw [reduceErrors_preserves f rest (reduceStep prev g c)
      (fun g' hg' => hplain g' (by simp [hg'])) hrest]
    by_cases hsent : c.isSentinel
    · simp [reduceStep, hsent]
    · by_cases htr : c.truthy
      · rw [show reduceStep prev g c = setIn prev g c from by
          simp [reduceStep, hsent, htr]]
        rw [setIn, hplain g (by simp)]
        exact getSegs_setSegs_key_ne f g hgf c prev
      · simp [reduceStep, hsent, htr]

theorem reduceErrors_entry (f : String) (e : Val)
    (ht : e.truthy = true) (hs : e.isSentinel = false) :
    ∀ (pairs : List (String × Val)) (prev : Val),
      keysDistinct (pairs.map Prod.fst) = true →
      (∀ g ∈ pairs.map Prod.fst, toPath g = [Seg.key g]) →
      (f, e) ∈ pairs →
      getSegs (reduceErrors prev pairs) [Seg.key f] = e
  | [], prev, _, _, hmem => by simp at hmem
  | (g, c) :: rest, prev, hdist, hplain, hmem => by
    have hdrest : keysDistinct (rest.map Prod.fst) = true := by
      simp [keysDistinct] at hdist
      exact hdist.2
    rw [show reduceErrors prev ((g, c) :: rest)
        = reduceErrors (reduceStep prev g c) rest from by simp [reduceErrors]]
    rcases List.mem_cons.mp hmem with hh | hh
    · have hg : f = g := congrArg Prod.fst hh
      have hc : e = c := congrArg Prod.snd hh
      subst hg; subst hc
      have hnm : keyMem f (rest.map Prod.fst) = false := by
        simp [keysDistinct] at hdist
        simpa using hdist.1
      rw [reduceErrors_preserves f rest (reduceStep prev f e)
        (fun g' hg' => hplain g' (by simp [hg'])) hnm]
      rw [show reduceStep prev f e = setIn prev f e from by
        simp [reduceStep, hs, ht]]
      rw [setIn, hplain f (by simp)]
      exact getSegs_setSegs [Seg.key f] prev e
    · exact reduceErrors_entry f e ht hs rest (reduceStep prev g c) hdrest
        (fun g' hg' => hplain g' (by simp [hg'])) hh

theorem promiseAll_map_ok {α : Type} (h : α → Val) :
    ∀ l : List α,
      promiseAll (l.map (fun a => VRes.ok (h a))) = Except.ok (l.map h)
  | [] => rfl
  | a :: rest => by
    simp [promiseAll, promiseAll_map_ok h rest, Except.map]

theorem reduceErrors_sentinel (prev : Val) :
    reduceErrors prev [("", Val.vStr sentinelStr)] = prev := by
  simp [reduceErrors, reduceStep, Val.isSentinel]

theorem mem_keys_of_mem_validatorEntries (g : String) (w : Val → VRes) :
    ∀ l : Fields, (g, w) ∈ validatorEntries l → g ∈ l.map Prod.fst
  | [], h => by simp [validatorEntries] at h
  | (k, reg) :: rest, h => by
    cases hv : reg.validate with
    | none =>
      rw [show validatorEntries ((k, reg) :: rest) = validatorEntries rest from
        by simp [validatorEntries, hv]] at h
      exact List.mem_cons_of_mem k
        (mem_keys_of_mem_validatorEntries g w rest h)
    | some vfn =>
      rw [show validatorEntries ((k, reg) :: rest)
          = (k, vfn) :: validatorEntries rest from
        by simp [validatorEntries, hv]] at h
      rcases List.mem_cons.mp h with he | hm
      · have hgk : g = k := congrArg Prod.fst he
        simp [hgk]
      · exact List.mem_cons_of_mem k
          (mem_keys_of_mem_validatorEntries g w rest hm)

theorem lookup_of_mem_validatorEntries (g : String) (w : Val → VRes) :
    ∀ l : Fields, keysDistinct (l.map Prod.fst) = true →
      (g, w) ∈ validatorEntries l → fieldValidatorLookup l g = some w
  | [], _, h => by simp [validatorEntries] at h
  | (k, reg) :: rest, hdist, h => by
    have hd : keyMem k (rest.map Prod.fst) = false ∧
        keysDistinct (rest.map Prod.fst) = true := by
      simpa [keysDistinct, Bool.and_eq_true] using hdist
    cases hv : reg.validate with
    | none =>
      rw [show validatorEntries ((k, reg) :: rest) = validatorEntries rest from
        by simp [validatorEntries, hv]] at h
      have hkg : k ≠ g := by
        intro e
        exact (keyMem_eq_false k _).mp hd.1
          (e ▸ mem_keys_of_mem_validatorEntries g w rest h)
      simp [fieldValidatorLookup, lookupField, hkg]
      have := lookup_of_mem_validatorEntries g w rest hd.2 h
      simpa [fieldValidatorLookup] using this
    | some vfn =>
      rw [show validatorEntries ((k, reg) :: rest)
          = (k, vfn) :: validatorEntries rest from
        by simp [validatorEntries, hv]] at h
      rcases List.mem_cons.mp h with he | hm
      · have h1 : g = k := congrArg Prod.fst he
        have h2 : w = vfn := congrArg Prod.snd he
        subst h1; subst h2
        simp [fieldValidatorLookup, lookupField, hv]
      · have hkg : k ≠ g := by
          intro e
          exact (keyMem_eq_false k _).mp hd.1
            (e ▸ mem_keys_of_mem_validatorEntries g w rest hm)
        simp [fieldValidatorLookup, lookupField, hkg]
        have := lookup_of_mem_validatorEntries g w rest hd.2 hm
        simpa [fieldValidatorLookup] using this

theorem validatorEntries_of_lookup (f : String) (vfn : Val → VRes) :
    ∀ l : Fields, fieldValidatorLookup l f = some vfn →
      (f, vfn) ∈ validatorEntries l
  | [], h => by simp [fieldValidatorLookup, lookupField] at h
  | (k, reg) :: rest, h => by
    by_cases hk : k = f
    · subst hk
      have hv : reg.validate = some vfn := by
        simpa [fieldValidatorLookup, lookupField] using h
      rw [show validatorEntries ((k, reg) :: rest)
          = (k, vfn) :: validatorEntries rest from
        by simp [validatorEntries, hv]]
      exact List.mem_cons_self _ _
    · have hr : fieldValidatorLookup rest f = some vfn := by
        simpa [fieldValidatorLookup, lookupField, hk] using h
      have hm := validatorEntries_of_lookup f vfn rest hr
      cases hv : reg.validate with
      | none =>
        rw [show validatorEntries ((k, reg) :: rest) = validatorEntries rest
          from by simp [validatorEntries, hv]]
        exact hm
      | some w =>
        rw [show validatorEntries ((k, reg) :: rest)
            = (k, w) :: validatorEntries rest from
          by simp [validatorEntries, hv]]
        exact List.mem_cons_of_mem _ hm

theorem validatorEntries_unregister (f : String) :
    ∀ l : Fields, validatorEntries (unregisterField l f)
      = (validatorEntries l).filter (fun p => p.1 ≠ f)
  | [] => rfl
  | (k, reg) :: rest => by
    have hrec := validatorEntries_unregister f rest
    by_cases hk : k = f <;> cases hv : reg.validate <;>
      simpa [unregisterField, validatorEntries, hk, hv] using hrec

theorem pairs_filter_comm (f : String) (values : Val) :
    ∀ entries : List (String × (Val → VRes)),
      (entries.filter (fun p => p.1 ≠ f)).map
          (fun p => (p.1, (p.2 (getIn values p.1)).settle))
        = (entries.map (fun p => (p.1, (p.2 (getIn values p.1)).settle))).filter
            (fun q => q.1 ≠ f)
  | [] => rfl
  | (g, w) :: rest => by
    have hrec := pairs_filter_comm f values rest
    by_cases h : g = f <;> simp [h] <;> simpa using hrec

theorem reduceErrors_filter_skip (f : String) :
    ∀ (pairs : List (String × Val)) (prev : Val),
      (∀ c, (f, c) ∈ pairs → (c.isSentinel || !c.truthy) = true) →
      reduceErrors prev pairs
        = reduceErrors prev (pairs.filter (fun p => p.1 ≠ f))
  | [], _, _ => rfl
  | (g, c) :: rest, prev, hall => by
    have hallr : ∀ c', (f, c') ∈ rest → (c'.isSentinel || !c'.truthy) = true :=
      fun c' hc' => hall c' (List.mem_cons_of_mem _ hc')
    by_cases h : g = f
    · subst h
      rw [show reduceErrors prev ((g, c) :: rest)
          = reduceErrors (reduceStep prev g c) rest from by simp [reduceErrors]]
      rw [reduceStep_skip prev g c (hall c (List.mem_cons_self _ _))]
      rw [show ((g, c) :: rest).filter (fun p => p.1 ≠ g)
          = rest.filter (fun p => p.1 ≠ g) from by simp]
      exact reduceErrors_filter_skip g rest prev hallr
    · rw [show ((g, c) :: rest).filter (fun p => p.1 ≠ f)
          = (g, c) :: rest.filter (fun p => p.1 ≠ f) from by simp [h]]
      rw [show reduceErrors prev ((g, c) :: rest)
          = reduceErrors (reduceStep prev g c) rest from by simp [reduceErrors]]
      rw [show reduceErrors prev ((g, c) :: rest.filter (fun p => p.1 ≠ f))
          = reduceErrors (reduceStep prev g c) (rest.filter (fun p => p.1 ≠ f))
        from by simp [reduceErrors]]
      exact reduceErrors_filter_skip f rest (reduceStep prev g c) hallr

/-- C4: the field-level validation batch isolates every validator:
(i) the batch promise always fulfills, carrying every registered
validator's settled result (each single-field promise is caught with
`.then(x => x, e => e)` before `Promise.all`, so no rejection escapes);
(ii) with no validator-bearing registration the batch resolves to the
empty error tree; (iii) a validator that throws or rejects contributes its
rejection value as that field's entry in the resulting tree (stated for
registrations under distinct plain identifiers). -/
theorem fieldLevelBatch_isolation (fields : Fields) (values : Val) :
    (promiseAll (fieldLevelBatchPromises fields values)
      = Except.ok ((validatorEntries fields).map
          (fun p => (p.2 (getIn values p.1)).settle))) ∧
    (validatorEntries fields = [] →
      runFieldLevelValidations fields values = Val.vObj []) ∧
    (∀ (f : String) (vfn : Val → VRes) (e : Val),
      keysDistinct (fieldKeysWithValidation fields) = true →
      (∀ g ∈ fieldKeysWithValidation fields, toPath g = [Seg.key g]) →
      (f, vfn) ∈ validatorEntries fields →
      vfn (getIn values f) = VRes.err e →
      e.truthy = true → e.isSentinel = false →
      getSegs (runFieldLevelValidations fields values) [Seg.key f] = e) := by
  refine ⟨promiseAll_map_ok _ (validatorEntries fields), ?_, ?_⟩
  · intro hE
    simp [runFieldLevelValidations, hE, reduceErrors, reduceStep,
      Val.isSentinel]
  · intro f vfn e hdist hplain hmem hr ht hs
    have hne : (validatorEntries fields).isEmpty = false := by
      cases hE : validatorEntries fields with
      | nil => rw [hE] at hmem; simp at hmem
      | cons a l => simp
    rw [show runFieldLevelValidations fields values
        = reduceErrors (Val.vObj []) ((validatorEntries fields).map
            (fun p => (p.1, (p.2 (getIn values p.1)).settle))) from by
      simp [runFieldLevelValidations, hne]]
    refine reduceErrors_entry f e ht hs _ (Val.vObj []) ?_ ?_ ?_
    · rw [show ((validatorEntries fields).map
          (fun p => (p.1, (p.2 (getIn values p.1)).settle))).map Prod.fst
            = fieldKeysWithValidation fields from by
        simp [fieldKeysWithValidation, List.map_map]]
      exact hdist
    · intro g hg
      refine hplain g ?_
      rw [show ((validatorEntries fields).map
          (fun p => (p.1, (p.2 (getIn values p.1)).settle))).map Prod.fst
            = fieldKeysWithValidation fields from by
        simp [fieldKeysWithValidation, List.map_map]] at hg
      exact hg
    · refine List.mem_map.mpr ⟨(f, vfn), hmem, ?_⟩
      simp [hr, VRes.settle]

/-- Witness for C4: the empty form's batch resolves `{}`, and the rejecting
`email` validator's rejection value becomes `errors.email`. -/
theorem fieldLevelBatch_isolation_witness :
    runFieldLevelValidations [] (Val.vObj []) = Val.vObj [] ∧
    getSegs (runFieldLevelValidations rejectingFields (Val.vObj []))
        [Seg.key "email"] = Val.vStr "boom" :=
  ⟨(fieldLevelBatch_isolation [] (Val.vObj [])).2.1 rfl,
    (fieldLevelBatch_isolation rejectingFields (Val.vObj [])).2.2 "email"
      (fun _ => VRes.err (Val.vStr "boom")) (Val.vStr "boom") rfl
      (by intro g hg
          have : g = "email" := by
            simpa [fieldKeysWithValidation, validatorEntries,
              rejectingFields] using hg
          rw [this]
          rfl)
      (List.mem_singleton.mpr rfl) rfl (by decide) rfl⟩

/-- C9: a settled field-validator result that is the reserved sentinel
string, or falsy, contributes no entry: the batch result equals the batch
run with that field's registration removed. -/
theorem sentinel_and_falsy_skipped (fields : Fields) (values : Val)
    (f : String) (vfn : Val → VRes)
    (hk : keysDistinct (fields.map Prod.fst) = true)
    (hl : fieldValidatorLookup fields f = some vfn)
    (hc : ((vfn (getIn values f)).settle.isSentinel
        || !(vfn (getIn values f)).settle.truthy) = true) :
    runFieldLevelValidations fields values
      = runFieldLevelValidations (unregisterField fields f) values := by
  have hmem : (f, vfn) ∈ validatorEntries fields :=
    validatorEntries_of_lookup f vfn fields hl
  have hne : (validatorEntries fields).isEmpty = false := by
    cases hE : validatorEntries fields with
    | nil => rw [hE] at hmem; simp at hmem
    | cons a l => simp
  have hallskip : ∀ c, (f, c) ∈ (validatorEntries fields).map
      (fun p => (p.1, (p.2 (getIn values p.1)).settle)) →
      (c.isSentinel || !c.truthy) = true := by
    intro c hcmem
    rcases List.mem_map.mp hcmem with ⟨p, hp, hpe⟩
    obtain ⟨g, w⟩ := p
    have hg : g = f := congrArg Prod.fst hpe
    subst hg
    have hw : fieldValidatorLookup fields g = some w :=
      lookup_of_mem_validatorEntries g w fields hk hp
    rw [hl] at hw
    have hwv : vfn = w := Option.some.inj hw
    have hcv : (w (getIn values g)).settle = c := congrArg Prod.snd hpe
    rw [← hcv, ← hwv]
    exact hc
  rw [show runFieldLevelValidations fields values
      = reduceErrors (Val.vObj []) ((validatorEntries fields).map
          (fun p => (p.1, (p.2 (getIn values p.1)).settle))) from by
    simp [runFieldLevelValidations, hne]]
  rw [reduceErrors_filter_skip f _ (Val.vObj []) hallskip]
  rw [← pairs_filter_comm f values (validatorEntries fields)]
  rw [← validatorEntries_unregister f fields]
  cases hU : validatorEntries (unregisterField fields f) with
  | nil =>
    simp [runFieldLevelValidations, hU, reduceErrors, reduceStep,
      Val.isSentinel]
  | cons a l =>
    rw [show runFieldLevelValidations (unregisterField fields f) values
        = reduceErrors (Val.vObj [])
            ((validatorEntries (unregisterField fields f)).map
              (fun p => (p.1, (p.2 (getIn values p.1)).settle))) from by
      simp [runFieldLevelValidations, hU]]
    rw [hU]

/-- Witness for C9: a validator resolving exactly the sentinel string
yields the same batch result as having no validator at all. -/
theorem sentinel_and_falsy_skipped_witness :
    runFieldLevelValidations sentinelFields (Val.vObj [])
      = runFieldLevelValidations (unregisterField sentinelFields "a")
          (Val.vObj []) :=
  sentinel_and_falsy_skipped sentinelFields (Val.vObj []) "a"
    (fun _ => VRes.ok (Val.vStr sentinelStr)) rfl rfl
    (by simp [VRes.settle, Val.isSentinel, sentinelStr])

end Formik
